import Mathlib

/-!
Verification of the tool-orchestration engine in
`src/crates/goose/src/agents/agent.rs` (the goose agent core).

The Rust code is shallowly embedded: async functions become pure functions
threading an explicit `AgentState`, futures and notification streams become
values and lists, and the external collaborators (extension registry,
config store, router selector, model provider, ...) become oracle fields of
an environment record.  Nondeterministic interleavings (stream merging,
`tokio::select!` races) are captured by explicit schedule parameters, so
theorems quantify over every possible interleaving.
-/

namespace Goose

deriving instance DecidableEq for Except

/-- JSON-like argument values, as used in tool-call arguments. -/
inductive JValue where
  | str (s : String)
  | num (n : Int)
  | boolean (b : Bool)
  | null
deriving DecidableEq, Repr

/-- A tool call: name and arguments (mcp_core::tool::ToolCall / crate::tool_monitor::ToolCall). -/
structure ToolCall where
  name : String
  arguments : List (String × JValue)
deriving DecidableEq, Repr

/-- Tool errors (mcp_core::ToolError); the agent core itself only constructs ExecutionError,
other variants may flow in from collaborators. -/
inductive ToolError where
  | ExecutionError (msg : String)
  | OtherError (msg : String)
deriving DecidableEq, Repr

/-- Result content items (mcp_core::Content). -/
inductive Content where
  | text (s : String)
deriving DecidableEq, Repr

/-- A JSON-RPC protocol message carried on a tool notification stream. -/
structure JsonRpcMessage where
  payload : String
deriving DecidableEq, Repr

/-- The result of a tool call (super::tool_execution::ToolCallResult): the lazily
evaluated terminal result becomes a value, the optional lazy notification stream a list. -/
structure ToolCallResult where
  result : Except ToolError (List Content)
  notification_stream : Option (List JsonRpcMessage)
deriving DecidableEq

/-- Embeds `ToolCallResult::from(result)`: a result with no notification stream. -/
def ToolCallResult.ofResult (r : Except ToolError (List Content)) : ToolCallResult :=
  { result := r, notification_stream := none }

/-- Modelled from the spec: the repetition monitor (crate::tool_monitor::ToolMonitor,
whose source is not under src/).  It maps a (name, canonicalized arguments) fingerprint
to an occurrence count, with an optional configured maximum; `check_tool_call` increments
the fingerprint count and returns false once the count exceeds the maximum (no maximum
means unlimited). -/
structure ToolMonitor where
  maxRepetitions : Option Nat
  counts : List (ToolCall × Nat)
deriving DecidableEq

/-- Count recorded for a fingerprint (0 when never seen). -/
def lookupCount (counts : List (ToolCall × Nat)) (c : ToolCall) : Nat :=
  match counts.find? (fun p => decide (p.1 = c)) with
  | some p => p.2
  | none => 0

/-- Store a fingerprint count, replacing any previous entry. -/
def setCount (counts : List (ToolCall × Nat)) (c : ToolCall) (n : Nat) :
    List (ToolCall × Nat) :=
  match counts with
  | [] => [(c, n)]
  | p :: rest => if p.1 = c then (c, n) :: rest else p :: setCount rest c n

/-- Modelled from the spec: ToolMonitor::check_tool_call increments the fingerprint
count and rejects (returns false) once it exceeds the configured maximum. -/
def ToolMonitor.check_tool_call (m : ToolMonitor) (c : ToolCall) : Bool × ToolMonitor :=
  let n := lookupCount m.counts c + 1
  (match m.maxRepetitions with
   | none => true
   | some mx => decide (n ≤ mx),
   { m with counts := setCount m.counts c n })

/-- The mutable agent-side state the embedded operations thread explicitly:
the extension registry contents and the repetition monitor. -/
structure AgentState where
  extensions : List String
  monitor : Option ToolMonitor
deriving DecidableEq

/-- Observable collaborator invocations recorded by the embedding. -/
inductive TraceEv where
  | manageCalled (action extension_name : String)
  | indexUpdateCalled (extension_name vector_action : String) (outcome : Except String Unit)
  | readResourceCalled
  | listResourcesCalled
  | searchExtensionsCalled
  | frontendSignaled (name : String)
  | selectToolsCalled
  | extensionDispatched (name : String)
  | toolDispatched (request_id : String)
deriving DecidableEq

/-- External collaborators of the dispatcher, as oracles: the stored extension
configuration lookup (ExtensionConfigManager::get_config_by_name), the extension
registry operations, the optional router tool selector, the router index manager,
and the uniform oversize post-processing function
(super::large_response_handler::process_tool_response, kept abstract). -/
structure DispatchEnv where
  configLookup : String → Except String (Option String)
  addExtension : String → Except String Unit
  removeExtension : String → Except String Unit
  selectorSome : Bool
  indexUpdate : String → String → Except String Unit
  readResource : List (String × JValue) → Except ToolError (List Content)
  listResources : List (String × JValue) → Except ToolError (List Content)
  searchExtensions : Except ToolError (List Content)
  frontendTools : List String
  selectTools : List (String × JValue) → Except String (List Content)
  extDispatch : ToolCall → Except String ToolCallResult
  proc : Except ToolError (List Content) → Except ToolError (List Content)

/-- Modelled from the spec: tool name constants of platform_tools.rs (not under src/);
the manage-extensions name is pinned by the spec scenario in section 8. -/
def PLATFORM_MANAGE_EXTENSIONS_TOOL_NAME : String := "platform__manage_extensions"

/-- Modelled from the spec: platform read-resource tool name (platform_tools.rs not under src/). -/
def PLATFORM_READ_RESOURCE_TOOL_NAME : String := "platform__read_resource"

/-- Modelled from the spec: platform list-resources tool name (platform_tools.rs not under src/). -/
def PLATFORM_LIST_RESOURCES_TOOL_NAME : String := "platform__list_resources"

/-- Modelled from the spec: extension discovery tool name (platform_tools.rs not under src/). -/
def PLATFORM_SEARCH_AVAILABLE_EXTENSIONS_TOOL_NAME : String := "platform__search_available_extensions"

/-- Modelled from the spec: router vector-search tool name (router_tools.rs not under src/). -/
def ROUTER_VECTOR_SEARCH_TOOL_NAME : String := "router__vector_search"

/-- Modelled from the spec: router llm-search tool name (router_tools.rs not under src/). -/
def ROUTER_LLM_SEARCH_TOOL_NAME : String := "router__llm_search"

/-- Modelled from the spec: the fixed declined response text of tool_execution.rs
(not under src/). -/
def DECLINED_RESPONSE : String :=
  "The user has declined to run this tool"

/-- Modelled from the spec: the fixed chat-mode skipped response text of tool_execution.rs
(not under src/). -/
def CHAT_MODE_TOOL_SKIPPED_RESPONSE : String :=
  "Tool call was skipped in chat mode"

/-- Embeds `arguments.get(key).and_then(as_str).unwrap_or("")` (agent.rs lines 214-225):
a missing or non-string argument becomes the empty string. -/
def argStr (args : List (String × JValue)) (key : String) : String :=
  match args.find? (fun p => decide (p.1 = key)) with
  | some (_, JValue.str s) => s
  | _ => ""

/-- Embeds Agent::manage_extensions (agent.rs lines 305-389).  Returns the request id,
the tool result, the updated state, and the trace of router-index update calls.
Note the `disable` arm returns before the index-update block, exactly as the source does. -/
def manage_extensions (env : DispatchEnv) (st : AgentState)
    (action extension_name request_id : String) :
    String × Except ToolError (List Content) × AgentState × List TraceEv :=
  if action = "disable" then
    match env.removeExtension extension_name with
    | .ok _ =>
        (request_id,
         .ok [Content.text
           ("The extension \x27" ++ extension_name ++ "\x27 has been disabled successfully")],
         { st with extensions := st.extensions.erase extension_name }, [])
    | .error e => (request_id, .error (ToolError.ExecutionError e), st, [])
  else
    match env.configLookup extension_name with
    | .ok none =>
        (request_id,
         .error (ToolError.ExecutionError
           ("Extension \x27" ++ extension_name ++
             "\x27 not found. Please check the extension name and try again.")),
         st, [])
    | .error e =>
        (request_id,
         .error (ToolError.ExecutionError ("Failed to get extension config: " ++ e)),
         st, [])
    | .ok (some config) =>
        match env.addExtension config with
        | .error e => (request_id, .error (ToolError.ExecutionError e), st, [])
        | .ok _ =>
            if env.selectorSome then
              match env.indexUpdate extension_name
                  (if action = "disable" then "remove" else "add") with
              | .error e =>
                  (request_id,
                   .error (ToolError.ExecutionError ("Failed to update vector index: " ++ e)),
                   { st with extensions := extension_name :: st.extensions },
                   [TraceEv.indexUpdateCalled extension_name
                     (if action = "disable" then "remove" else "add") (.error e)])
              | .ok _ =>
                  (request_id,
                   .ok [Content.text
                     ("The extension \x27" ++ extension_name ++
                       "\x27 has been installed successfully")],
                   { st with extensions := extension_name :: st.extensions },
                   [TraceEv.indexUpdateCalled extension_name
                     (if action = "disable" then "remove" else "add") (.ok ())])
            else
              (request_id,
               .ok [Content.text
                 ("The extension \x27" ++ extension_name ++
                   "\x27 has been installed successfully")],
               { st with extensions := extension_name :: st.extensions }, [])

/-- A resolution-branch outcome inside dispatch_tool_call: `early` is a Rust `return`
(bypassing the post-processing wrap), `fall` falls through to the uniform wrap. -/
inductive BranchOut where
  | early (r : Except ToolError ToolCallResult)
  | fall (r : ToolCallResult)

/-- Embeds the resolution branches of dispatch_tool_call other than platform extension
management (agent.rs lines 233-290): platform resource tools, extension discovery,
frontend tools, router search tools, and generic extension dispatch. -/
def dispatch_branch (env : DispatchEnv) (tool_call : ToolCall) :
    BranchOut × List TraceEv :=
  if tool_call.name = PLATFORM_READ_RESOURCE_TOOL_NAME then
    (.fall (ToolCallResult.ofResult (env.readResource tool_call.arguments)),
     [TraceEv.readResourceCalled])
  else if tool_call.name = PLATFORM_LIST_RESOURCES_TOOL_NAME then
    (.fall (ToolCallResult.ofResult (env.listResources tool_call.arguments)),
     [TraceEv.listResourcesCalled])
  else if tool_call.name = PLATFORM_SEARCH_AVAILABLE_EXTENSIONS_TOOL_NAME then
    (.fall (ToolCallResult.ofResult env.searchExtensions),
     [TraceEv.searchExtensionsCalled])
  else if tool_call.name ∈ env.frontendTools then
    (.fall (ToolCallResult.ofResult
      (.error (ToolError.ExecutionError "Frontend tool execution required"))),
     [TraceEv.frontendSignaled tool_call.name])
  else if tool_call.name = ROUTER_VECTOR_SEARCH_TOOL_NAME ∨
      tool_call.name = ROUTER_LLM_SEARCH_TOOL_NAME then
    if env.selectorSome then
      match env.selectTools tool_call.arguments with
      | .ok tools => (.fall (ToolCallResult.ofResult (.ok tools)), [TraceEv.selectToolsCalled])
      | .error e =>
          (.early (.error (ToolError.ExecutionError ("Failed to select tools: " ++ e))),
           [TraceEv.selectToolsCalled])
    else
      (.early (.error (ToolError.ExecutionError "No tool selector available")), [])
  else
    match env.extDispatch tool_call with
    | .ok call_result => (.fall call_result, [TraceEv.extensionDispatched tool_call.name])
    | .error e =>
        (.fall (ToolCallResult.ofResult (.error (ToolError.ExecutionError e))),
         [TraceEv.extensionDispatched tool_call.name])

/-- Embeds Agent::dispatch_tool_call (agent.rs lines 194-303): repetition-monitor gate,
then the platform-manage-extensions early return, then the remaining branches, whose
fall-through results are wrapped with the uniform post-processing `proc`. -/
def dispatch_tool_call (env : DispatchEnv) (st : AgentState)
    (tool_call : ToolCall) (request_id : String) :
    String × Except ToolError ToolCallResult × AgentState × List TraceEv :=
  let checked : Bool × AgentState :=
    match st.monitor with
    | some m =>
        let r := m.check_tool_call tool_call
        (r.1, { st with monitor := some r.2 })
    | none => (true, st)
  if !checked.1 then
    (request_id,
     .error (ToolError.ExecutionError
       "Tool call rejected: exceeded maximum allowed repetitions"),
     checked.2, [])
  else if tool_call.name = PLATFORM_MANAGE_EXTENSIONS_TOOL_NAME then
    let extension_name := argStr tool_call.arguments "extension_name"
    let action := argStr tool_call.arguments "action"
    match manage_extensions env checked.2 action extension_name request_id with
    | (rid, result, st1, tr) =>
        (rid, .ok (ToolCallResult.ofResult result), st1,
         TraceEv.manageCalled action extension_name :: tr)
  else
    match dispatch_branch env tool_call with
    | (.early r, tr) => (request_id, r, checked.2, tr)
    | (.fall r, tr) =>
        (request_id,
         .ok { result := env.proc r.result,
               notification_stream := r.notification_stream },
         checked.2, tr)

/-- An item of a per-call tagged stream (ToolStreamItem in agent.rs lines 121-124). -/
inductive ToolStreamItem (α : Type) where
  | message (m : JsonRpcMessage)
  | result (r : α)
deriving DecidableEq

/-- Embeds tool_stream (agent.rs lines 132-153): the `tokio::select!` loop racing the
notification stream against the terminal future.  The schedule of select decisions is
explicit: `true` picks the notification branch when a notification is available, `false`
means the terminal future resolved and was selected.  An exhausted schedule or an
exhausted notification stream leaves only the terminal future to resolve. -/
def tool_stream {α : Type} :
    List JsonRpcMessage → List Bool → α → List (ToolStreamItem α)
  | _, [], r => [.result r]
  | [], _, r => [.result r]
  | m :: ms, true :: sched, r => .message m :: tool_stream ms sched r
  | _ :: _, false :: _, r => [.result r]

/-- Items of the merged multi-call stream carry plain results. -/
abbrev StreamItem := ToolStreamItem (Except ToolError (List Content))

/-- The stream queued for one dispatched call (agent.rs lines 759-768): the delivered
prefix of its notifications (the cut models the select race of tool_stream) followed by
its single terminal result. -/
def mkStream (cut : Nat) (notifs : List JsonRpcMessage)
    (r : Except ToolError (List Content)) : List StreamItem :=
  (notifs.take cut).map .message ++ [.result r]

/-- Remove the next available item of the stream tagged `id`, if any. -/
def popId (id : String) :
    List (String × List StreamItem) →
    Option (StreamItem × List (String × List StreamItem))
  | [] => none
  | p :: rest =>
      if p.1 = id then
        match p.2 with
        | [] => none
        | it :: tl => some (it, (p.1, tl) :: rest)
      else
        match popId id rest with
        | none => none
        | some (it, rest1) => some (it, p :: rest1)

/-- Emit every remaining item of every stream, in order (the tail behaviour of
`select_all`, which runs until every stream has ended). -/
def drainStreams (streams : List (String × List StreamItem)) :
    List (String × StreamItem) :=
  streams.flatMap fun p => p.2.map fun it => (p.1, it)

/-- Embeds `stream::select_all` over the tagged per-call streams (agent.rs lines 806-813):
an explicit schedule picks which call's next item is emitted; within one call emission
order is preserved, and the merge ends only when every stream has ended (any leftover
after the schedule is drained in order). -/
def mergeAll : List String → List (String × List StreamItem) →
    List (String × StreamItem)
  | [], streams => drainStreams streams
  | id :: sched, streams =>
      match popId id streams with
      | none => mergeAll sched streams
      | some (it, streams1) => (id, it) :: mergeAll sched streams1

/-- The terminal results among a stream's items. -/
def resultsOfItems (items : List StreamItem) : List (Except ToolError (List Content)) :=
  items.filterMap fun it =>
    match it with
    | .result r => some r
    | .message _ => none

/-- The tool-response entries folded into the shared accumulator by the collection loop
(agent.rs lines 817-830): one keyed insert per `Result` item, in merge order. -/
def collectResults (merged : List (String × StreamItem)) :
    List (String × Except ToolError (List Content)) :=
  merged.filterMap fun p =>
    match p.2 with
    | .result r => some (p.1, r)
    | .message _ => none

/-- Conversation messages (crate::message::Message), restricted to the shapes the
agent core produces: assistant text, the fixed context-length-exceeded message, the
shared tool-response accumulator message, and intermediate prompt/info messages. -/
inductive Msg where
  | assistant (text : String)
  | contextLengthExceeded (text : String)
  | toolResponse (entries : List (String × Except ToolError (List Content)))
  | info (text : String)
deriving DecidableEq

/-- The externally observed output unit (AgentEvent in agent.rs lines 66-70). -/
inductive AgentEvent where
  | message (m : Msg)
  | mcpNotification (request_id : String) (msg : JsonRpcMessage)
deriving DecidableEq

/-- The notification events re-emitted by the collection loop (agent.rs lines 826-828). -/
def collectEvents (merged : List (String × StreamItem)) : List AgentEvent :=
  merged.filterMap fun p =>
    match p.2 with
    | .message m => some (AgentEvent.mcpNotification p.1 m)
    | .result _ => none

/-- Whether a result is an error (`output.is_err()`). -/
def isErrR : Except ToolError (List Content) → Bool
  | .error _ => true
  | .ok _ => false

/-- The `all_install_successful` fold of the collection loop (agent.rs lines 815-830):
false as soon as an extension-enabling request id yields an error result. -/
def allInstallOk (merged : List (String × StreamItem)) (enables : List String) : Bool :=
  merged.all fun p =>
    match p.2 with
    | .result r => !(enables.contains p.1 && isErrR r)
    | .message _ => true

/-- One tool-call request of a turn (ToolRequest): id plus parse outcome. -/
structure ToolRequest where
  id : String
  tool_call : Except String ToolCall
deriving DecidableEq

/-- Whether the request's tool call parsed successfully. -/
def tcOk (r : ToolRequest) : Bool :=
  match r.tool_call with
  | .ok _ => true
  | .error _ => false

/-- The output of the permission gate (PermissionCheckResult): three disjoint request
sequences.  The gate itself (permission_judge.rs) is a consumed collaborator. -/
structure PermissionCheckResult where
  approved : List ToolRequest
  denied : List ToolRequest
  needs_approval : List ToolRequest
deriving DecidableEq

/-- The per-turn data the loop obtains from collaborators whose code is outside this
file: the categorized model response (categorize_tool_requests), frontend handling
(handle_frontend_tool_requests, modelled from the spec: each frontend request resolves
to an externally supplied result while intermediate messages are emitted), the
permission gate output, confirmation decisions on the approval channel, and the
nondeterminism schedules (per-call notification cut and merge interleaving). -/
structure TurnOracle where
  frontendRequests : List ToolRequest
  remainingRequests : List ToolRequest
  filteredText : String
  frontendEvents : List String
  frontendResults : String → Except ToolError (List Content)
  permission : PermissionCheckResult
  enableExtensionIds : List String
  approvalEvents : List String
  confirmations : String → Bool
  notifCut : String → Nat
  schedule : List String

/-- Embeds the pre-approved dispatch loop (agent.rs lines 752-770): each approved
request whose tool call parsed Ok is dispatched immediately and its tagged stream
queued; a request whose tool call is a parse error is skipped by the
`if let Ok(tool_call)` pattern. -/
def dispatchApproved (env : DispatchEnv) (st : AgentState) (cut : String → Nat) :
    List ToolRequest →
    List (String × List StreamItem) × AgentState × List TraceEv
  | [] => ([], st, [])
  | r :: rs =>
      match r.tool_call with
      | .error _ => dispatchApproved env st cut rs
      | .ok call =>
          match dispatch_tool_call env st call r.id with
          | (rid, res, st1, tr) =>
              let strm := match res with
                | .ok tcr => mkStream (cut rid) (tcr.notification_stream.getD []) tcr.result
                | .error e => mkStream (cut rid) [] (.error e)
              match dispatchApproved env st1 cut rs with
              | (rest, st2, tr2) =>
                  ((rid, strm) :: rest, st2,
                   tr ++ [TraceEv.toolDispatched r.id] ++ tr2)

/-- Modelled from the spec: handle_approval_tool_requests (tool_execution.rs, not under
src/).  Each needs-approval request waits for its confirmation on the approval channel;
upon approval it is dispatched and its tagged stream queued (mirroring the approved-path
parse-error skip), upon denial it resolves immediately like a denied request. -/
def handleApprovals (env : DispatchEnv) (st : AgentState)
    (conf : String → Bool) (cut : String → Nat) :
    List ToolRequest →
    List (String × List StreamItem) ×
      List (String × Except ToolError (List Content)) × AgentState × List TraceEv
  | [] => ([], [], st, [])
  | r :: rs =>
      if conf r.id then
        match r.tool_call with
        | .error _ => handleApprovals env st conf cut rs
        | .ok call =>
            match dispatch_tool_call env st call r.id with
            | (rid, res, st1, tr) =>
                let strm := match res with
                  | .ok tcr => mkStream (cut rid) (tcr.notification_stream.getD []) tcr.result
                  | .error e => mkStream (cut rid) [] (.error e)
                match handleApprovals env st1 conf cut rs with
                | (strs, acc, st2, tr2) =>
                    ((rid, strm) :: strs, acc, st2,
                     tr ++ [TraceEv.toolDispatched r.id] ++ tr2)
      else
        match handleApprovals env st conf cut rs with
        | (strs, acc, st1, tr1) =>
            (strs, (r.id, .ok [Content.text DECLINED_RESPONSE]) :: acc, st1, tr1)

/-- The outcome of one turn's tool-handling phase. -/
structure TurnOut where
  events : List AgentEvent
  state : AgentState
  trace : List TraceEv
  finalResponse : List (String × Except ToolError (List Content))
  refreshed : Bool
deriving DecidableEq

/-- Embeds the tool-handling phase of one turn of Agent::reply (agent.rs lines 711-842),
entered after the filtered model response has been emitted, when the turn issued at
least one tool request.  Frontend requests are resolved first; then, in chat mode,
every remaining request is resolved with the fixed skipped response and nothing is
dispatched; otherwise the permission partition drives immediate dispatch of approved
requests, immediate declined entries for denied requests, spec-modelled approval
handling for the rest, and the merged tagged streams are collected into the shared
accumulator, which is emitted exactly once at the end. -/
def runTurn (env : DispatchEnv) (st : AgentState) (mode : String) (o : TurnOracle) :
    TurnOut :=
  let accF := o.frontendRequests.map fun r => (r.id, o.frontendResults r.id)
  let evF := o.frontendEvents.map fun s => AgentEvent.message (Msg.info s)
  if mode = "chat" then
    let acc := accF ++ o.remainingRequests.map fun r =>
      (r.id, .ok [Content.text CHAT_MODE_TOOL_SKIPPED_RESPONSE])
    { events := evF ++ [AgentEvent.message (Msg.toolResponse acc)],
      state := st, trace := [], finalResponse := acc, refreshed := false }
  else
    let pcr := o.permission
    match dispatchApproved env st o.notifCut pcr.approved with
    | (streamsA, st1, tr1) =>
        let accD := pcr.denied.map fun r => (r.id, .ok [Content.text DECLINED_RESPONSE])
        match handleApprovals env st1 o.confirmations o.notifCut pcr.needs_approval with
        | (streamsB, accA, st2, tr2) =>
            let evA := o.approvalEvents.map fun s => AgentEvent.message (Msg.info s)
            let merged := mergeAll o.schedule (streamsA ++ streamsB)
            let acc := accF ++ accD ++ accA ++ collectResults merged
            { events := evF ++ evA ++ collectEvents merged ++
                [AgentEvent.message (Msg.toolResponse acc)],
              state := st2, trace := tr1 ++ tr2, finalResponse := acc,
              refreshed := allInstallOk merged o.enableExtensionIds }

/-- One provider round trip outcome, with the data of the resulting turn when the call
succeeds (generate_response_from_provider plus categorize_tool_requests, and the
metering hook outcome of the charge callback). -/
inductive ProviderOutcome where
  | ok (chargeErr : Option String) (turn : TurnOracle)
  | contextLengthExceeded (e : String)
  | other (e : String)

/-- The fixed guidance text yielded on ContextLengthExceeded (agent.rs lines 848-850). -/
def CONTEXT_LENGTH_EXCEEDED_TEXT : String :=
  "The context length of the model has been exceeded. Please start a new session and try again."

/-- The fixed retry message (including the error text) yielded on any other provider
error (agent.rs line 856). -/
def retryText (e : String) : String :=
  "Ran into this error: " ++ e ++
    ".\n\nPlease retry if you think this is a transient or recoverable error."

/-- Embeds the conversation loop of Agent::reply (agent.rs lines 638-863) over a script
of provider outcomes, one consumed per iteration; returns the emitted events and the
number of provider calls made.  A provider error, a metering-hook failure, or a turn
with zero tool requests breaks the loop; otherwise the turn's tool phase runs and the
loop continues (script exhaustion just ends the run). -/
def runLoop (env : DispatchEnv) (st : AgentState) (mode : String) :
    List ProviderOutcome → List AgentEvent × Nat
  | [] => ([], 0)
  | .contextLengthExceeded _ :: _ =>
      ([AgentEvent.message (Msg.contextLengthExceeded CONTEXT_LENGTH_EXCEEDED_TEXT)], 1)
  | .other e :: _ =>
      ([AgentEvent.message (Msg.assistant (retryText e))], 1)
  | .ok (some e) _ :: _ =>
      ([AgentEvent.message (Msg.assistant ("Failed to pay service fee in agent loop: " ++ e))], 1)
  | .ok none turn :: rest =>
      let evHead := [AgentEvent.message (Msg.assistant turn.filteredText)]
      if turn.frontendRequests.length + turn.remainingRequests.length = 0 then
        (evHead, 1)
      else
        let t := runTurn env st mode turn
        match runLoop env t.state mode rest with
        | (evs, n) => (evHead ++ t.events ++ evs, n + 1)

/-- The request ids issued in a turn: frontend requests plus remaining requests. -/
def issuedIds (o : TurnOracle) : List String :=
  o.frontendRequests.map (fun r => r.id) ++ o.remainingRequests.map (fun r => r.id)

/-- Whether an event is an emission of the aggregated tool-response message. -/
def isToolRespEvent : AgentEvent → Bool
  | .message (.toolResponse _) => true
  | _ => false

/-- Whether an event is an McpNotification tagged with the given request id. -/
def isNotifFor (id : String) : AgentEvent → Bool
  | .mcpNotification i _ => decide (i = id)
  | _ => false

/-- The first failed router-index update recorded in a trace, if any. -/
def firstFailedIndex : List TraceEv → Option String
  | [] => none
  | TraceEv.indexUpdateCalled _ _ (.error e) :: _ => some e
  | _ :: rest => firstFailedIndex rest

/-- Whether a provider outcome lets the loop continue into the next iteration:
a successful round trip whose metering charge succeeded and that issued at least
one tool request. -/
def continuesOk : ProviderOutcome → Bool
  | .ok none turn => decide (turn.frontendRequests.length + turn.remainingRequests.length ≠ 0)
  | _ => false

/-- A concrete dispatch environment whose collaborators all succeed trivially and
whose post-processing is the identity; used to evaluate the embedding on concrete inputs. -/
def trivialEnv : DispatchEnv where
  configLookup := fun _ => .ok none
  addExtension := fun _ => .ok ()
  removeExtension := fun _ => .ok ()
  selectorSome := false
  indexUpdate := fun _ _ => .ok ()
  readResource := fun _ => .ok []
  listResources := fun _ => .ok []
  searchExtensions := .ok []
  frontendTools := []
  selectTools := fun _ => .ok []
  extDispatch := fun _ => .ok (ToolCallResult.ofResult (.ok []))
  proc := id

/-- The empty agent state: no extensions, no repetition monitor. -/
def st0 : AgentState := { extensions := [], monitor := none }

/-- A dispatch environment whose post-processing replaces any result with a fixed
marker, making it observable whether a result passed through post-processing. -/
def env_proc : DispatchEnv :=
  { trivialEnv with proc := fun _ => .ok [Content.text "PROCESSED"] }

/-- A dispatch environment with an active router tool selector. -/
def env_router : DispatchEnv := { trivialEnv with selectorSome := true }

/-- A state with one installed extension named demo. -/
def st_demo : AgentState := { extensions := ["demo"], monitor := none }

/-- A dispatch environment where the stored configuration exists, the selector is
active, and the router-index update fails. -/
def env_idxfail : DispatchEnv :=
  { trivialEnv with
      selectorSome := true
      configLookup := fun _ => .ok (some "cfg")
      indexUpdate := fun _ _ => .error "boom" }

/-- A state whose repetition monitor has maximum 0, so it rejects every call. -/
def st_rej : AgentState :=
  { extensions := [], monitor := some { maxRepetitions := some 0, counts := [] } }

/-- A request with id a and a successfully parsed tool call. -/
def reqA : ToolRequest := { id := "a", tool_call := .ok { name := "tool_a", arguments := [] } }

/-- A request with id b and a successfully parsed tool call. -/
def reqB : ToolRequest := { id := "b", tool_call := .ok { name := "tool_b", arguments := [] } }

/-- A request whose tool call failed to parse. -/
def reqBad : ToolRequest := { id := "a", tool_call := .error "parse error" }

/-- A turn oracle with no requests and trivial collaborators, to be specialized. -/
def baseOracle : TurnOracle where
  frontendRequests := []
  remainingRequests := []
  filteredText := ""
  frontendEvents := []
  frontendResults := fun _ => .ok []
  permission := { approved := [], denied := [], needs_approval := [] }
  enableExtensionIds := []
  approvalEvents := []
  confirmations := fun _ => false
  notifCut := fun _ => 0
  schedule := []

/-- A turn whose only request has an unparsable tool call that the gate approved. -/
def oracle_badApproved : TurnOracle :=
  { baseOracle with
      remainingRequests := [reqBad]
      permission := { approved := [reqBad], denied := [], needs_approval := [] } }

/-- A turn with one approved and one denied request. -/
def oracle_apDen : TurnOracle :=
  { baseOracle with
      remainingRequests := [reqA, reqB]
      permission := { approved := [reqA], denied := [reqB], needs_approval := [] } }

/-- A turn with a single denied request. -/
def oracle_denied : TurnOracle :=
  { baseOracle with
      remainingRequests := [reqB]
      permission := { approved := [], denied := [reqB], needs_approval := [] } }

/-- A continuing loop iteration: one approved request, charge succeeded. -/
def iter_ok : ProviderOutcome :=
  .ok none { baseOracle with
      filteredText := "hi"
      remainingRequests := [reqA]
      permission := { approved := [reqA], denied := [], needs_approval := [] } }

/-- Every early (Rust `return`) outcome of the non-management branches is an error:
only the selector-unavailable and selection-failure returns bypass the fall-through wrap. -/
theorem dispatch_branch_early_error (env : DispatchEnv) (call : ToolCall)
    (r : Except ToolError ToolCallResult) (tr : List TraceEv)
    (h : dispatch_branch env call = (.early r, tr)) : ∃ e, r = .error e := by
  unfold dispatch_branch at h
  repeat' split at h
  all_goals simp only [Prod.mk.injEq] at h
  all_goals first
    | exact ⟨_, (BranchOut.early.inj h.1).symm⟩
    | exact BranchOut.noConfusion h.1

/-- C9: tool_stream emits a prefix of the delivered notifications as Message items and
then exactly one Result item, which is the final item of the sequence; no Message item
follows it, whatever the select schedule — even if further notifications were pending
when the result future resolved. -/
theorem c9_tool_stream_single_final_result {α : Type}
    (notifs : List JsonRpcMessage) (sched : List Bool) (r : α) :
    ∃ k, tool_stream notifs sched r =
      (notifs.take k).map ToolStreamItem.message ++ [ToolStreamItem.result r] := by
  induction sched generalizing notifs with
  | nil => cases notifs <;> exact ⟨0, rfl⟩
  | cons b s ih =>
      cases notifs with
      | nil => exact ⟨0, rfl⟩
      | cons m ms =>
          cases b with
          | false => exact ⟨0, rfl⟩
          | true =>
              obtain ⟨k, hk⟩ := ih ms
              exact ⟨k + 1, by simp [tool_stream, hk, List.take_succ_cons]⟩

/-- C7: in chat mode the turn resolves every remaining request immediately with the
fixed skipped response in the shared accumulator, and the tool dispatcher is never
invoked (the turn's dispatch trace is empty). -/
theorem c7_chat_mode_skips (env : DispatchEnv) (st : AgentState) (o : TurnOracle) :
    (runTurn env st "chat" o).finalResponse =
      (o.frontendRequests.map fun r => (r.id, o.frontendResults r.id)) ++
        o.remainingRequests.map
          (fun r => (r.id, Except.ok [Content.text CHAT_MODE_TOOL_SKIPPED_RESPONSE])) ∧
    (runTurn env st "chat" o).trace = [] := by
  constructor <;> simp [runTurn]

/-- C5: a tool call the repetition monitor rejects yields the fixed
exceeded-maximum-repetitions execution error, with an empty dispatch trace (no platform
handler, no extension dispatch, no other resolution branch) and no state change beyond
the monitor count; the error is the call's final result — nothing retries it. -/
theorem c5_monitor_rejection (env : DispatchEnv) (st : AgentState) (m : ToolMonitor)
    (call : ToolCall) (id : String)
    (hm : st.monitor = some m)
    (hrej : (m.check_tool_call call).1 = false) :
    dispatch_tool_call env st call id =
      (id,
       .error (ToolError.ExecutionError
         "Tool call rejected: exceeded maximum allowed repetitions"),
       { st with monitor := some (m.check_tool_call call).2 }, []) := by
  unfold dispatch_tool_call
  rw [hm]
  simp [hrej]

/-- C5 witness: with a maximum of 0 every call is rejected; the concrete dispatch
returns the repetition error with an empty trace. -/
theorem c5_monitor_rejection_witness :
    st_rej.monitor = some { maxRepetitions := some 0, counts := [] } ∧
    ((ToolMonitor.check_tool_call { maxRepetitions := some 0, counts := [] }
        { name := "t", arguments := [] }).1 = false) ∧
    dispatch_tool_call trivialEnv st_rej { name := "t", arguments := [] } "r1" =
      ("r1",
       .error (ToolError.ExecutionError
         "Tool call rejected: exceeded maximum allowed repetitions"),
       { st_rej with monitor := some (ToolMonitor.check_tool_call
           { maxRepetitions := some 0, counts := [] } { name := "t", arguments := [] }).2 },
       []) :=
  ⟨rfl, by decide,
   c5_monitor_rejection trivialEnv st_rej { maxRepetitions := some 0, counts := [] }
     { name := "t", arguments := [] } "r1" rfl (by decide)⟩

/-- C4: whenever a manage_extensions run records a failed router-index update after the
extension mutation succeeded, the mutation persists (the extension is in the resulting
registry) and the caller receives exactly the index-update failure as the call's error
result. -/
theorem c4_index_failure_keeps_mutation (env : DispatchEnv) (st : AgentState)
    (action extension_name request_id e : String) :
    ∀ rid res st1 tr,
      manage_extensions env st action extension_name request_id = (rid, res, st1, tr) →
      firstFailedIndex tr = some e →
      res = .error (ToolError.ExecutionError ("Failed to update vector index: " ++ e)) ∧
        extension_name ∈ st1.extensions := by
  intro rid res st1 tr hEq hf
  unfold manage_extensions at hEq
  repeat' split at hEq
  all_goals simp only [Prod.mk.injEq] at hEq
  all_goals obtain ⟨h1, h2, h3, h4⟩ := hEq
  all_goals subst h2
  all_goals subst h3
  all_goals subst h4
  all_goals simp only [firstFailedIndex] at hf
  all_goals first
    | (obtain rfl : _ = e := Option.some.inj hf
       exact ⟨rfl, by simp⟩)
    | exact Option.noConfusion hf

/-- C4 witness: a successful install whose index update fails with boom yields exactly
the index-failure error while the extension stays installed. -/
theorem c4_index_failure_keeps_mutation_witness :
    (manage_extensions env_idxfail st0 "enable" "demo" "r1" =
      ("r1",
       .error (ToolError.ExecutionError "Failed to update vector index: boom"),
       { extensions := ["demo"], monitor := none },
       [TraceEv.indexUpdateCalled "demo" "add" (.error "boom")]) ∧
     firstFailedIndex [TraceEv.indexUpdateCalled "demo" "add" (.error "boom")] = some "boom") ∧
    ((Except.error (ToolError.ExecutionError "Failed to update vector index: boom") :
        Except ToolError (List Content)) =
      .error (ToolError.ExecutionError ("Failed to update vector index: " ++ "boom")) ∧
      "demo" ∈ ({ extensions := ["demo"], monitor := none } : AgentState).extensions) :=
  ⟨⟨by decide, by decide⟩,
   c4_index_failure_keeps_mutation env_idxfail st0 "enable" "demo" "r1" "boom"
     "r1" (.error (ToolError.ExecutionError "Failed to update vector index: boom"))
     { extensions := ["demo"], monitor := none }
     [TraceEv.indexUpdateCalled "demo" "add" (.error "boom")] (by decide) (by decide)⟩

/-- C2 (code_bug evaluation): with an active router selector, a successful
manage_extensions removal (action disable) returns success but records no router-index
update at all — the disable arm returns before the index-update block, whose
vector_action computation for disable is unreachable dead code. -/
theorem c2_disable_never_updates_index :
    env_router.selectorSome = true ∧
    manage_extensions env_router st_demo "disable" "demo" "r1" =
      ("r1",
       .ok [Content.text "The extension \x27demo\x27 has been disabled successfully"],
       { extensions := [], monitor := none }, []) :=
  ⟨rfl, by decide⟩

/-- C10: dispatching platform__manage_extensions reads action and extension_name with
an empty-string default, so any action other than disable (including an absent one) is
an install attempt that looks up the stored configuration by the (possibly empty)
extension name and, when none exists, returns the Extension-not-found execution error
as the tool result. -/
theorem c10_missing_args_install_not_found (env : DispatchEnv) (st : AgentState)
    (args : List (String × JValue)) (id : String)
    (hmon : st.monitor = none)
    (hact : argStr args "action" ≠ "disable")
    (hcfg : env.configLookup (argStr args "extension_name") = .ok none) :
    dispatch_tool_call env st
        { name := PLATFORM_MANAGE_EXTENSIONS_TOOL_NAME, arguments := args } id =
      (id,
       .ok (ToolCallResult.ofResult (.error (ToolError.ExecutionError
         ("Extension \x27" ++ argStr args "extension_name" ++
           "\x27 not found. Please check the extension name and try again.")))),
       st,
       [TraceEv.manageCalled (argStr args "action") (argStr args "extension_name")]) := by
  unfold dispatch_tool_call
  rw [hmon]
  simp [manage_extensions, hact, hcfg]

/-- C10 witness: empty arguments give empty action and name; with no stored
configuration for the empty name the call returns the Extension-not-found error. -/
theorem c10_missing_args_install_not_found_witness :
    (st0.monitor = none ∧ argStr [] "action" = "" ∧
      trivialEnv.configLookup (argStr [] "extension_name") = .ok none) ∧
    dispatch_tool_call trivialEnv st0
        { name := PLATFORM_MANAGE_EXTENSIONS_TOOL_NAME, arguments := [] } "r1" =
      ("r1",
       .ok (ToolCallResult.ofResult (.error (ToolError.ExecutionError
         ("Extension \x27" ++ argStr [] "extension_name" ++
           "\x27 not found. Please check the extension name and try again.")))),
       st0, [TraceEv.manageCalled (argStr [] "action") (argStr [] "extension_name")]) :=
  ⟨⟨rfl, rfl, rfl⟩,
   c10_missing_args_install_not_found trivialEnv st0 [] "r1" rfl (by decide) rfl⟩

/-- C1 counterexample: it is not the case that every successful dispatch result passed
through the uniform post-processing step — the platform extension management branch
returns its result directly.  With a post-processing function that maps everything to a
fixed marker, the manage-extensions branch still returns an unprocessed result. -/
theorem c1_counterexample :
    ¬ (∀ (env : DispatchEnv) (st : AgentState) (call : ToolCall) (id rid : String)
        (out : ToolCallResult) (st1 : AgentState) (tr : List TraceEv),
        dispatch_tool_call env st call id = (rid, .ok out, st1, tr) →
        ∃ raw, out.result = env.proc raw) := by
  intro h
  obtain ⟨raw, hraw⟩ := h env_proc st0
    { name := PLATFORM_MANAGE_EXTENSIONS_TOOL_NAME, arguments := [] } "r1" "r1"
    (ToolCallResult.ofResult (.error (ToolError.ExecutionError
      "Extension \x27\x27 not found. Please check the extension name and try again.")))
    st0 [TraceEv.manageCalled "" ""] (by decide)
  simp [env_proc, ToolCallResult.ofResult] at hraw

/-- C1 corrected: every successful result of a dispatch whose tool name is not the
platform extension management tool passes through the uniform post-processing function
before being returned, whichever resolution branch produced it. -/
theorem c1_nonmanage_postprocessed (env : DispatchEnv) (st : AgentState) (call : ToolCall)
    (id rid : String) (out : ToolCallResult) (st1 : AgentState) (tr : List TraceEv)
    (hname : call.name ≠ PLATFORM_MANAGE_EXTENSIONS_TOOL_NAME)
    (h : dispatch_tool_call env st call id = (rid, .ok out, st1, tr)) :
    ∃ raw, out.result = env.proc raw := by
  unfold dispatch_tool_call at h
  rcases hst : st.monitor with _ | m
  all_goals rw [hst] at h
  all_goals simp only at h
  all_goals repeat' split at h
  all_goals first
    | exact absurd (by assumption) hname
    | (simp only [Prod.mk.injEq] at h
       exact Except.noConfusion h.2.1)
    | (obtain ⟨e, rfl⟩ := dispatch_branch_early_error env call _ _ (by assumption)
       simp only [Prod.mk.injEq] at h
       exact Except.noConfusion h.2.1)
    | (simp only [Prod.mk.injEq] at h
       obtain ⟨-, h2, -, -⟩ := h
       obtain rfl := Except.ok.inj h2
       exact ⟨_, rfl⟩)

/-- manage_extensions always returns the request id it was given. -/
theorem manage_fst (env : DispatchEnv) (st : AgentState) (a n id : String) :
    (manage_extensions env st a n id).1 = id := by
  unfold manage_extensions
  repeat' split
  all_goals rfl

/-- dispatch_tool_call always returns the request id it was given. -/
theorem dispatch_fst (env : DispatchEnv) (st : AgentState) (c : ToolCall) (id : String) :
    (dispatch_tool_call env st c id).1 = id := by
  unfold dispatch_tool_call
  rcases hst : st.monitor with _ | m
  all_goals simp only
  all_goals repeat' split
  all_goals try rfl
  all_goals exact manage_fst env _ _ _ _

/-- manage_extensions never records a dispatched-call trace event. -/
theorem manage_no_toolDispatched (env : DispatchEnv) (st : AgentState) (a n id x : String) :
    TraceEv.toolDispatched x ∉ (manage_extensions env st a n id).2.2.2 := by
  unfold manage_extensions
  repeat' split
  all_goals simp

/-- The non-management branches never record a dispatched-call trace event. -/
theorem dispatch_branch_no_toolDispatched (env : DispatchEnv) (c : ToolCall) (x : String) :
    TraceEv.toolDispatched x ∉ (dispatch_branch env c).2 := by
  unfold dispatch_branch
  repeat' split
  all_goals simp

/-- dispatch_tool_call never records a dispatched-call trace event (those are recorded
by the turn loop around it). -/
theorem dispatch_no_toolDispatched (env : DispatchEnv) (st : AgentState)
    (c : ToolCall) (id : String) (x : String) :
    TraceEv.toolDispatched x ∉ (dispatch_tool_call env st c id).2.2.2 := by
  unfold dispatch_tool_call
  rcases hst : st.monitor with _ | m
  all_goals simp only
  all_goals repeat' split
  all_goals try simp
  all_goals intro hmem
  all_goals first
    | exact manage_no_toolDispatched env _ _ _ _ x hmem
    | (rcases List.mem_cons.mp hmem with hh | hh
       · exact TraceEv.noConfusion hh
       · exact manage_no_toolDispatched env _ _ _ _ x hh)
    | (rename_i heq
       have hb := dispatch_branch_no_toolDispatched env c x
       rw [heq] at hb
       exact hb hmem)
    | (rename_i b heq
       have hb := dispatch_branch_no_toolDispatched env c x
       rw [heq] at hb
       exact hb hmem)

/-- popId removes exactly one tagged item from the drained union of the streams. -/
theorem popId_perm (id : String) (streams : List (String × List StreamItem))
    (it : StreamItem) (s1 : List (String × List StreamItem))
    (h : popId id streams = some (it, s1)) :
    (drainStreams streams).Perm ((id, it) :: drainStreams s1) := by
  induction streams generalizing s1 with
  | nil => exact Option.noConfusion h
  | cons p rest ih =>
      obtain ⟨i, items⟩ := p
      by_cases hp : i = id
      · subst hp
        cases items with
        | nil => simp [popId] at h
        | cons it0 tl =>
            simp only [popId, if_pos rfl, if_true, Option.some.injEq, Prod.mk.injEq] at h
            obtain ⟨h1, h2⟩ := h
            subst h1
            subst h2
            have e1 : drainStreams ((i, it0 :: tl) :: rest) =
                (i, it0) :: drainStreams ((i, tl) :: rest) := by
              simp [drainStreams]
            rw [e1]
      · simp only [popId, if_neg hp] at h
        rcases hrec : popId id rest with _ | ⟨it', rest1⟩
        · rw [hrec] at h; exact Option.noConfusion h
        · rw [hrec] at h
          simp only [Option.some.injEq, Prod.mk.injEq] at h
          obtain ⟨rfl, rfl⟩ := h
          have hperm := ih rest1 hrec
          have e1 : drainStreams ((i, items) :: rest) =
              items.map (fun it => (i, it)) ++ drainStreams rest := by
            simp [drainStreams]
          have e2 : drainStreams ((i, items) :: rest1) =
              items.map (fun it => (i, it)) ++ drainStreams rest1 := by
            simp [drainStreams]
          rw [e1, e2]
          exact (hperm.append_left _).trans List.perm_middle

/-- The merged stream is a permutation of the union of the per-call streams, whatever
the interleaving schedule. -/
theorem mergeAll_perm (sched : List String) (streams : List (String × List StreamItem)) :
    (mergeAll sched streams).Perm (drainStreams streams) := by
  induction sched generalizing streams with
  | nil => exact List.Perm.refl _
  | cons id rest ih =>
      rcases hpop : popId id streams with _ | ⟨it, s1⟩
      · simp only [mergeAll, hpop]
        exact ih streams
      · simp only [mergeAll, hpop]
        exact ((ih s1).cons _).trans (popId_perm id streams it s1 hpop).symm

/-- Collecting the results of one tagged stream recovers that stream's results. -/
theorem collect_tag (i : String) (items : List StreamItem) :
    collectResults (items.map fun it => (i, it)) =
      (resultsOfItems items).map fun r => (i, r) := by
  induction items with
  | nil => rfl
  | cons it tl ih =>
      cases it with
      | message m => simpa [collectResults, resultsOfItems] using ih
      | result r => simpa [collectResults, resultsOfItems] using ih

/-- Collecting the drained union collects each stream's results in order. -/
theorem collect_drain (streams : List (String × List StreamItem)) :
    collectResults (drainStreams streams) =
      streams.flatMap fun p => (resultsOfItems p.2).map fun r => (p.1, r) := by
  induction streams with
  | nil => rfl
  | cons p rest ih =>
      simp only [drainStreams, List.flatMap_cons] at *
      simp only [collectResults, List.filterMap_append] at *
      rw [ih]
      congr 1
      exact collect_tag p.1 p.2

/-- Mapped notification items carry no terminal result. -/
theorem resultsOfItems_map_message (l : List JsonRpcMessage) :
    resultsOfItems (l.map ToolStreamItem.message) = [] := by
  induction l with
  | nil => rfl
  | cons a tl ih => simpa [resultsOfItems] using ih

/-- resultsOfItems distributes over append. -/
theorem resultsOfItems_append (a b : List StreamItem) :
    resultsOfItems (a ++ b) = resultsOfItems a ++ resultsOfItems b := by
  simp [resultsOfItems, List.filterMap_append]

/-- A queued per-call stream carries exactly one terminal result. -/
theorem resultsOf_mkStream (c : Nat) (ns : List JsonRpcMessage)
    (r : Except ToolError (List Content)) :
    resultsOfItems (mkStream c ns r) = [r] := by
  show resultsOfItems ((ns.take c).map ToolStreamItem.message ++ [ToolStreamItem.result r]) = [r]
  rw [resultsOfItems_append, resultsOfItems_map_message]
  rfl

/-- Every event collected from the merge is a notification tagged with a merged id. -/
theorem mem_collectEvents (merged : List (String × StreamItem)) (ev : AgentEvent)
    (h : ev ∈ collectEvents merged) :
    ∃ y m, ev = AgentEvent.mcpNotification y m ∧ (y, ToolStreamItem.message m) ∈ merged := by
  simp only [collectEvents, List.mem_filterMap] at h
  obtain ⟨⟨y, it⟩, hmem, hsome⟩ := h
  cases it with
  | message m => exact ⟨y, m, (Option.some.inj hsome).symm, hmem⟩
  | result r => exact Option.noConfusion hsome

/-- Every id merged came from one of the queued streams. -/
theorem mem_mergeAll_fst (sched : List String) (streams : List (String × List StreamItem))
    (y : String) (it : StreamItem) (h : (y, it) ∈ mergeAll sched streams) :
    y ∈ streams.map Prod.fst := by
  have hd := (mergeAll_perm sched streams).mem_iff.mp h
  simp only [drainStreams, List.mem_flatMap, List.mem_map] at hd
  obtain ⟨p, hp, it', _, heq⟩ := hd
  exact List.mem_map.mpr ⟨p, hp, congrArg Prod.fst heq⟩

/-- Intermediate info messages are never the aggregated tool-response message. -/
theorem countP_info_zero (l : List String) :
    (l.map fun s => AgentEvent.message (Msg.info s)).countP isToolRespEvent = 0 := by
  refine List.countP_eq_zero.mpr ?_
  intro a ha
  obtain ⟨s, -, rfl⟩ := List.mem_map.mp ha
  simp [isToolRespEvent]

/-- Re-emitted notifications are never the aggregated tool-response message. -/
theorem countP_collectEvents_zero (merged : List (String × StreamItem)) :
    (collectEvents merged).countP isToolRespEvent = 0 := by
  refine List.countP_eq_zero.mpr ?_
  intro a ha
  obtain ⟨y, m, rfl, -⟩ := mem_collectEvents merged a ha
  simp [isToolRespEvent]

/-- The approved-dispatch loop queues one stream per approved request whose tool call
parsed, tagged with that request's id; parse failures are skipped. -/
theorem dispatchApproved_ids (env : DispatchEnv) (cut : String → Nat)
    (rs : List ToolRequest) : ∀ st : AgentState,
    (dispatchApproved env st cut rs).1.map Prod.fst =
      (rs.filter tcOk).map fun r => r.id := by
  induction rs with
  | nil => intro st; rfl
  | cons r rest ih =>
      intro st
      rcases hr : r.tool_call with e | call
      · have hok : tcOk r = false := by simp [tcOk, hr]
        simp [dispatchApproved, hr, List.filter_cons, hok, ih st]
      · have hok : tcOk r = true := by simp [tcOk, hr]
        rcases hd : dispatch_tool_call env st call r.id with ⟨rid, res, st1, tr⟩
        have hrid : rid = r.id := by
          have h := dispatch_fst env st call r.id
          rw [hd] at h
          exact h
        simp [dispatchApproved, hr, hd, List.filter_cons, hok, ih st1, hrid]

/-- Every stream the approved-dispatch loop queues carries exactly one result. -/
theorem dispatchApproved_one (env : DispatchEnv) (cut : String → Nat)
    (rs : List ToolRequest) : ∀ (st : AgentState) (p : String × List StreamItem),
    p ∈ (dispatchApproved env st cut rs).1 → ∃ r, resultsOfItems p.2 = [r] := by
  induction rs with
  | nil => intro st p hp; exact absurd hp (List.not_mem_nil p)
  | cons r rest ih =>
      intro st p hp
      rcases hr : r.tool_call with e | call
      · simp only [dispatchApproved, hr] at hp
        exact ih st p hp
      · rcases hd : dispatch_tool_call env st call r.id with ⟨rid, res, st1, tr⟩
        rcases hda : dispatchApproved env st1 cut rest with ⟨rest', st2, tr2⟩
        simp only [dispatchApproved, hr, hd, hda] at hp
        rcases List.mem_cons.mp hp with hh | hh
        · subst hh
          cases res with
          | ok tcr => exact ⟨tcr.result, resultsOf_mkStream _ _ _⟩
          | error e => exact ⟨.error e, resultsOf_mkStream _ _ _⟩
        · have hih := ih st1 p
          rw [hda] at hih
          exact hih hh

/-- Every dispatched-call trace entry of the approved loop names an approved request. -/
theorem dispatchApproved_dispatched (env : DispatchEnv) (cut : String → Nat)
    (rs : List ToolRequest) : ∀ (st : AgentState) (x : String),
    TraceEv.toolDispatched x ∈ (dispatchApproved env st cut rs).2.2 →
      x ∈ rs.map fun r => r.id := by
  induction rs with
  | nil => intro st x h; exact absurd h (List.not_mem_nil _)
  | cons r rest ih =>
      intro st x h
      rcases hr : r.tool_call with e | call
      · simp only [dispatchApproved, hr] at h
        exact List.mem_cons.mpr (Or.inr (ih st x h))
      · rcases hd : dispatch_tool_call env st call r.id with ⟨rid, res, st1, tr⟩
        rcases hda : dispatchApproved env st1 cut rest with ⟨rest', st2, tr2⟩
        simp only [dispatchApproved, hr, hd, hda] at h
        simp only [List.append_assoc, List.mem_append, List.mem_singleton] at h
        rcases h with hh | hh | hh
        · have hnd := dispatch_no_toolDispatched env st call r.id x
          rw [hd] at hnd
          exact absurd hh hnd
        · exact List.mem_cons.mpr (Or.inl (TraceEv.toolDispatched.inj hh))
        · have hih := ih st1 x
          rw [hda] at hih
          exact List.mem_cons.mpr (Or.inr (hih hh))

/-- The approval handler queues one stream per confirmed request whose tool call
parsed, tagged with its id. -/
theorem handleApprovals_ids (env : DispatchEnv) (conf : String → Bool)
    (cut : String → Nat) (rs : List ToolRequest) : ∀ st : AgentState,
    (handleApprovals env st conf cut rs).1.map Prod.fst =
      (rs.filter fun r => conf r.id && tcOk r).map fun r => r.id := by
  induction rs with
  | nil => intro st; rfl
  | cons r rest ih =>
      intro st
      by_cases hc : conf r.id
      · rcases hr : r.tool_call with e | call
        · have hok : tcOk r = false := by simp [tcOk, hr]
          simp [handleApprovals, hc, hr, List.filter_cons, hok, ih st]
        · have hok : tcOk r = true := by simp [tcOk, hr]
          rcases hd : dispatch_tool_call env st call r.id with ⟨rid, res, st1, tr⟩
          have hrid : rid = r.id := by
            have h := dispatch_fst env st call r.id
            rw [hd] at h
            exact h
          simp [handleApprovals, hc, hr, hd, List.filter_cons, hok, ih st1, hrid]
      · simp [handleApprovals, hc, List.filter_cons, ih st]

/-- The approval handler resolves exactly the denied confirmations with the fixed
declined response, in order. -/
theorem handleApprovals_acc (env : DispatchEnv) (conf : String → Bool)
    (cut : String → Nat) (rs : List ToolRequest) : ∀ st : AgentState,
    (handleApprovals env st conf cut rs).2.1 =
      (rs.filter fun r => !conf r.id).map
        fun r => (r.id, .ok [Content.text DECLINED_RESPONSE]) := by
  induction rs with
  | nil => intro st; rfl
  | cons r rest ih =>
      intro st
      by_cases hc : conf r.id
      · rcases hr : r.tool_call with e | call
        · simp [handleApprovals, hc, hr, List.filter_cons, ih st]
        · rcases hd : dispatch_tool_call env st call r.id with ⟨rid, res, st1, tr⟩
          simp [handleApprovals, hc, hr, hd, List.filter_cons, ih st1]
      · simp [handleApprovals, hc, List.filter_cons, ih st]

/-- Every stream the approval handler queues carries exactly one result. -/
theorem handleApprovals_one (env : DispatchEnv) (conf : String → Bool)
    (cut : String → Nat) (rs : List ToolRequest) :
    ∀ (st : AgentState) (p : String × List StreamItem),
    p ∈ (handleApprovals env st conf cut rs).1 → ∃ r, resultsOfItems p.2 = [r] := by
  induction rs with
  | nil => intro st p hp; exact absurd hp (List.not_mem_nil p)
  | cons r rest ih =>
      intro st p hp
      by_cases hc : conf r.id
      · rcases hr : r.tool_call with e | call
        · simp only [handleApprovals] at hp
          rw [if_pos hc] at hp
          simp only [hr] at hp
          exact ih st p hp
        · rcases hd : dispatch_tool_call env st call r.id with ⟨rid, res, st1, tr⟩
          rcases hha : handleApprovals env st1 conf cut rest with ⟨strs, acc, st2, tr2⟩
          simp only [handleApprovals] at hp
          rw [if_pos hc] at hp
          simp only [hr, hd, hha] at hp
          rcases List.mem_cons.mp hp with hh | hh
          · subst hh
            cases res with
            | ok tcr => exact ⟨tcr.result, resultsOf_mkStream _ _ _⟩
            | error e => exact ⟨.error e, resultsOf_mkStream _ _ _⟩
          · have hih := ih st1 p
            rw [hha] at hih
            exact hih hh
      · rcases hha : handleApprovals env st conf cut rest with ⟨strs, acc, st2, tr2⟩
        simp only [handleApprovals] at hp
        rw [if_neg hc] at hp
        simp only [hha] at hp
        have hih := ih st p
        rw [hha] at hih
        exact hih hp

/-- Every dispatched-call trace entry of the approval handler names a needs-approval
request. -/
theorem handleApprovals_dispatched (env : DispatchEnv) (conf : String → Bool)
    (cut : String → Nat) (rs : List ToolRequest) : ∀ (st : AgentState) (x : String),
    TraceEv.toolDispatched x ∈ (handleApprovals env st conf cut rs).2.2.2 →
      x ∈ rs.map fun r => r.id := by
  induction rs with
  | nil => intro st x h; exact absurd h (List.not_mem_nil _)
  | cons r rest ih =>
      intro st x h
      by_cases hc : conf r.id
      · rcases hr : r.tool_call with e | call
        · simp only [handleApprovals] at h
          rw [if_pos hc] at h
          simp only [hr] at h
          exact List.mem_cons.mpr (Or.inr (ih st x h))
        · rcases hd : dispatch_tool_call env st call r.id with ⟨rid, res, st1, tr⟩
          rcases hha : handleApprovals env st1 conf cut rest with ⟨strs, acc, st2, tr2⟩
          simp only [handleApprovals] at h
          rw [if_pos hc] at h
          simp only [hr, hd, hha] at h
          simp only [List.append_assoc, List.mem_append, List.mem_singleton] at h
          rcases h with hh | hh | hh
          · have hnd := dispatch_no_toolDispatched env st call r.id x
            rw [hd] at hnd
            exact absurd hh hnd
          · exact List.mem_cons.mpr (Or.inl (TraceEv.toolDispatched.inj hh))
          · have hih := ih st1 x
            rw [hha] at hih
            exact List.mem_cons.mpr (Or.inr (hih hh))
      · rcases hha : handleApprovals env st conf cut rest with ⟨strs, acc, st2, tr2⟩
        simp only [handleApprovals] at h
        rw [if_neg hc] at h
        simp only [hha] at h
        have hih := ih st x
        rw [hha] at hih
        exact List.mem_cons.mpr (Or.inr (hih h))

/-- Characterization of the agentic (non-chat) turn in terms of its phases. -/
theorem runTurn_agentic (env : DispatchEnv) (st : AgentState) (mode : String)
    (o : TurnOracle) (sA : List (String × List StreamItem)) (s1 : AgentState)
    (t1 : List TraceEv) (sB : List (String × List StreamItem))
    (aA : List (String × Except ToolError (List Content))) (s2 : AgentState)
    (t2 : List TraceEv)
    (hm : ¬ mode = "chat")
    (hA : dispatchApproved env st o.notifCut o.permission.approved = (sA, s1, t1))
    (hB : handleApprovals env s1 o.confirmations o.notifCut o.permission.needs_approval =
      (sB, aA, s2, t2)) :
    runTurn env st mode o =
      { events := (o.frontendEvents.map fun s => AgentEvent.message (Msg.info s)) ++
          (o.approvalEvents.map fun s => AgentEvent.message (Msg.info s)) ++
          collectEvents (mergeAll o.schedule (sA ++ sB)) ++
          [AgentEvent.message (Msg.toolResponse
            ((o.frontendRequests.map fun r => (r.id, o.frontendResults r.id)) ++
              (o.permission.denied.map fun r =>
                (r.id, .ok [Content.text DECLINED_RESPONSE])) ++
              aA ++ collectResults (mergeAll o.schedule (sA ++ sB))))],
        state := s2,
        trace := t1 ++ t2,
        finalResponse :=
          (o.frontendRequests.map fun r => (r.id, o.frontendResults r.id)) ++
            (o.permission.denied.map fun r =>
              (r.id, .ok [Content.text DECLINED_RESPONSE])) ++
            aA ++ collectResults (mergeAll o.schedule (sA ++ sB)),
        refreshed := allInstallOk (mergeAll o.schedule (sA ++ sB)) o.enableExtensionIds } := by
  simp only [runTurn, if_neg hm, hA, hB]

/-- Chat-mode characterization of the turn. -/
theorem runTurn_chat (env : DispatchEnv) (st : AgentState) (o : TurnOracle) :
    runTurn env st "chat" o =
      { events := (o.frontendEvents.map fun s => AgentEvent.message (Msg.info s)) ++
          [AgentEvent.message (Msg.toolResponse
            ((o.frontendRequests.map fun r => (r.id, o.frontendResults r.id)) ++
              o.remainingRequests.map fun r =>
                (r.id, .ok [Content.text CHAT_MODE_TOOL_SKIPPED_RESPONSE])))],
        state := st, trace := [],
        finalResponse :=
          (o.frontendRequests.map fun r => (r.id, o.frontendResults r.id)) ++
            o.remainingRequests.map fun r =>
              (r.id, .ok [Content.text CHAT_MODE_TOOL_SKIPPED_RESPONSE]),
        refreshed := false } := by
  simp [runTurn]

/-- Permutation congruence for result collection. -/
theorem collectResults_perm {l₁ l₂ : List (String × StreamItem)} (h : l₁.Perm l₂) :
    (collectResults l₁).Perm (collectResults l₂) :=
  List.Perm.filterMap _ h

/-- Tagging each stream's single result and flattening reproduces the stream tags. -/
theorem flatMap_results_fst (streams : List (String × List StreamItem))
    (hone : ∀ p ∈ streams, ∃ r, resultsOfItems p.2 = [r]) :
    ((streams.flatMap fun p => (resultsOfItems p.2).map fun r => (p.1, r)).map
      Prod.fst) = streams.map Prod.fst := by
  induction streams with
  | nil => rfl
  | cons p rest ih =>
      obtain ⟨r, hr⟩ := hone p (List.mem_cons_self p rest)
      simp [hr, ih fun q hq => hone q (List.mem_cons_of_mem p hq)]

/-- First components of keyed entries built from requests are the request ids. -/
theorem map_fst_pair {β : Type} (l : List ToolRequest) (f : ToolRequest → β) :
    (l.map fun r => (r.id, f r)).map Prod.fst = l.map fun r => r.id := by
  induction l with
  | nil => rfl
  | cons a tl ih => simp [ih]

/-- One continuing loop step: a successful, charged round trip with tool requests
emits the filtered response, runs the turn, and recurses on the updated state. -/
theorem runLoop_ok_none (env : DispatchEnv) (st : AgentState) (mode : String)
    (turn : TurnOracle) (rest : List ProviderOutcome) :
    runLoop env st mode (.ok none turn :: rest) =
      if turn.frontendRequests.length + turn.remainingRequests.length = 0 then
        ([AgentEvent.message (Msg.assistant turn.filteredText)], 1)
      else
        ([AgentEvent.message (Msg.assistant turn.filteredText)] ++
          (runTurn env st mode turn).events ++
          (runLoop env (runTurn env st mode turn).state mode rest).1,
         (runLoop env (runTurn env st mode turn).state mode rest).2 + 1) := by
  rfl

/-- C3 counterexample: a turn whose only issued request has an unparsable tool call
that the permission gate nevertheless approved completes without provider error, yet
the aggregated tool-response message is empty — the request id is missing, because the
approved-dispatch loop silently skips requests whose tool_call failed to parse. -/
theorem c3_counterexample :
    issuedIds oracle_badApproved = ["a"] ∧
    (runTurn trivialEnv st0 "auto" oracle_badApproved).finalResponse = [] :=
  ⟨rfl, by decide⟩

/-- C3 (amended): in every turn's tool phase, whatever the interleaving, the aggregated
tool-response message is emitted exactly once, as the final event (hence after every
dispatched call completed), and — provided the permission partition covers the
remaining requests and every pre-approved or approved-on-confirmation request has a
successfully parsed tool call — it contains exactly one entry per request id issued
that turn: no duplicates and none missing. -/
theorem c3_turn_response_complete (env : DispatchEnv) (st : AgentState) (mode : String)
    (o : TurnOracle)
    (hperm : ((o.permission.approved ++ o.permission.denied ++
        o.permission.needs_approval).map fun r => r.id).Perm
        (o.remainingRequests.map fun r => r.id))
    (hok1 : ∀ r ∈ o.permission.approved, tcOk r = true)
    (hok2 : ∀ r ∈ o.permission.needs_approval,
      o.confirmations r.id = true → tcOk r = true) :
    (runTurn env st mode o).events.countP isToolRespEvent = 1 ∧
    (runTurn env st mode o).events.getLast? =
      some (AgentEvent.message (Msg.toolResponse (runTurn env st mode o).finalResponse)) ∧
    ((runTurn env st mode o).finalResponse.map Prod.fst).Perm (issuedIds o) := by
  by_cases hm : mode = "chat"
  · subst hm
    rw [runTurn_chat]
    refine ⟨?_, ?_, ?_⟩
    · rw [List.countP_append, countP_info_zero]
      simp [isToolRespEvent]
    · exact List.getLast?_concat _
    · simp only [issuedIds, List.map_append, map_fst_pair]
      exact List.Perm.refl _
  · rcases hA : dispatchApproved env st o.notifCut o.permission.approved with ⟨sA, s1, t1⟩
    rcases hB : handleApprovals env s1 o.confirmations o.notifCut
      o.permission.needs_approval with ⟨sB, aA, s2, t2⟩
    rw [runTurn_agentic env st mode o sA s1 t1 sB aA s2 t2 hm hA hB]
    refine ⟨?_, ?_, ?_⟩
    · rw [List.countP_append, List.countP_append, List.countP_append,
        countP_info_zero, countP_info_zero, countP_collectEvents_zero]
      simp [isToolRespEvent]
    · exact List.getLast?_concat _
    · have hone : ∀ p ∈ sA ++ sB, ∃ r, resultsOfItems p.2 = [r] := by
        intro p hp
        rcases List.mem_append.mp hp with hh | hh
        · have h := dispatchApproved_one env o.notifCut o.permission.approved st p
          rw [hA] at h
          exact h hh
        · have h := handleApprovals_one env o.confirmations o.notifCut
            o.permission.needs_approval s1 p
          rw [hB] at h
          exact h hh
      have hAids : sA.map Prod.fst = o.permission.approved.map fun r => r.id := by
        have h := dispatchApproved_ids env o.notifCut o.permission.approved st
        rw [hA, List.filter_eq_self.mpr hok1] at h
        exact h
      have hBids : sB.map Prod.fst =
          (o.permission.needs_approval.filter fun r => o.confirmations r.id).map
            fun r => r.id := by
        have h := handleApprovals_ids env o.confirmations o.notifCut
          o.permission.needs_approval s1
        rw [hB] at h
        have hfeq : (o.permission.needs_approval.filter
              fun r => o.confirmations r.id && tcOk r) =
            o.permission.needs_approval.filter fun r => o.confirmations r.id := by
          refine List.filter_congr ?_
          intro x hx
          by_cases hcx : o.confirmations x.id
          · simp [hcx, hok2 x hx hcx]
          · simp [hcx]
        rw [hfeq] at h
        exact h
      have haA : aA = (o.permission.needs_approval.filter
            fun r => !o.confirmations r.id).map
          fun r => (r.id, Except.ok [Content.text DECLINED_RESPONSE]) := by
        have h := handleApprovals_acc env o.confirmations o.notifCut
          o.permission.needs_approval s1
        rw [hB] at h
        exact h
      have hMperm : ((collectResults (mergeAll o.schedule (sA ++ sB))).map
          Prod.fst).Perm ((sA ++ sB).map Prod.fst) := by
        have h1 := (collectResults_perm (mergeAll_perm o.schedule (sA ++ sB))).map Prod.fst
        rw [collect_drain, flatMap_results_fst _ hone] at h1
        exact h1
      apply Multiset.coe_eq_coe.mp
      have hM : (((collectResults (mergeAll o.schedule (sA ++ sB))).map Prod.fst :
            List String) : Multiset String) =
          ((o.permission.approved.map fun r => r.id : List String) : Multiset String) +
          ((o.permission.needs_approval.filter fun r => o.confirmations r.id).map
            fun r => r.id : List String) := by
        rw [Multiset.coe_eq_coe.mpr hMperm, List.map_append, hAids, hBids,
          ← Multiset.coe_add]
      have hP : ((o.permission.approved.map fun r => r.id : List String) :
            Multiset String) +
          (o.permission.denied.map fun r => r.id : List String) +
          (o.permission.needs_approval.map fun r => r.id : List String) =
          ((o.remainingRequests.map fun r => r.id : List String) : Multiset String) := by
        rw [Multiset.coe_add, Multiset.coe_add, ← List.map_append, ← List.map_append]
        exact Multiset.coe_eq_coe.mpr hperm
      have hCD : (((o.permission.needs_approval.filter
              fun r => o.confirmations r.id).map fun r => r.id : List String) :
            Multiset String) +
          ((o.permission.needs_approval.filter fun r => !o.confirmations r.id).map
            fun r => r.id : List String) =
          ((o.permission.needs_approval.map fun r => r.id : List String) :
            Multiset String) := by
        rw [Multiset.coe_add, ← List.map_append]
        exact Multiset.coe_eq_coe.mpr ((List.filter_append_perm _ _).map _)
      simp only [List.map_append, haA, map_fst_pair, issuedIds]
      simp only [← Multiset.coe_add]
      rw [hM, ← hP, ← hCD]
      abel

/-- C3 witness: a concrete agentic turn with one approved and one denied request has
the aggregated message emitted once, last, with exactly entries a and b. -/
theorem c3_turn_response_complete_witness :
    (((oracle_apDen.permission.approved ++ oracle_apDen.permission.denied ++
        oracle_apDen.permission.needs_approval).map fun r => r.id).Perm
      (oracle_apDen.remainingRequests.map fun r => r.id)) ∧
    ((runTurn trivialEnv st0 "auto" oracle_apDen).events.countP isToolRespEvent = 1 ∧
     (runTurn trivialEnv st0 "auto" oracle_apDen).events.getLast? =
       some (AgentEvent.message (Msg.toolResponse
         (runTurn trivialEnv st0 "auto" oracle_apDen).finalResponse)) ∧
     (((runTurn trivialEnv st0 "auto" oracle_apDen).finalResponse.map Prod.fst).Perm
       (issuedIds oracle_apDen))) :=
  ⟨List.Perm.refl _,
   c3_turn_response_complete trivialEnv st0 "auto" oracle_apDen (List.Perm.refl _)
     (by decide) (by decide)⟩

/-- C6: a request the permission gate denied is resolved in the shared accumulator with
the fixed declined response; no McpNotification event of the turn carries its id, and
the tool dispatcher is never invoked for it (no dispatched-call trace entry). -/
theorem c6_denied_never_dispatched (env : DispatchEnv) (st : AgentState) (mode : String)
    (o : TurnOracle) (r : ToolRequest)
    (hm : mode ≠ "chat")
    (hr : r ∈ o.permission.denied)
    (hna : r.id ∉ o.permission.approved.map fun x => x.id)
    (hnn : r.id ∉ o.permission.needs_approval.map fun x => x.id) :
    ((r.id, Except.ok [Content.text DECLINED_RESPONSE]) ∈
      (runTurn env st mode o).finalResponse) ∧
    ((runTurn env st mode o).events.countP (isNotifFor r.id) = 0) ∧
    (TraceEv.toolDispatched r.id ∉ (runTurn env st mode o).trace) := by
  rcases hA : dispatchApproved env st o.notifCut o.permission.approved with ⟨sA, s1, t1⟩
  rcases hB : handleApprovals env s1 o.confirmations o.notifCut
    o.permission.needs_approval with ⟨sB, aA, s2, t2⟩
  rw [runTurn_agentic env st mode o sA s1 t1 sB aA s2 t2 hm hA hB]
  refine ⟨?_, ?_, ?_⟩
  · apply List.mem_append.mpr
    left
    apply List.mem_append.mpr
    left
    apply List.mem_append.mpr
    right
    exact List.mem_map.mpr ⟨r, hr, rfl⟩
  · rw [List.countP_append, List.countP_append, List.countP_append]
    have h1 : ∀ l : List String,
        (l.map fun s => AgentEvent.message (Msg.info s)).countP (isNotifFor r.id) = 0 := by
      intro l
      refine List.countP_eq_zero.mpr ?_
      intro a ha
      obtain ⟨s, -, rfl⟩ := List.mem_map.mp ha
      simp [isNotifFor]
    have h2 : (collectEvents (mergeAll o.schedule (sA ++ sB))).countP
        (isNotifFor r.id) = 0 := by
      refine List.countP_eq_zero.mpr ?_
      intro a ha
      obtain ⟨y, mm, rfl, hmem⟩ := mem_collectEvents _ a ha
      have hy := mem_mergeAll_fst o.schedule (sA ++ sB) y _ hmem
      rw [List.map_append] at hy
      have hsub : y ∈ (o.permission.approved.map fun x => x.id) ∨
          y ∈ (o.permission.needs_approval.map fun x => x.id) := by
        rcases List.mem_append.mp hy with hh | hh
        · left
          have hi := dispatchApproved_ids env o.notifCut o.permission.approved st
          rw [hA] at hi
          rw [hi] at hh
          obtain ⟨x, hx, rfl⟩ := List.mem_map.mp hh
          exact List.mem_map.mpr ⟨x, List.mem_of_mem_filter hx, rfl⟩
        · right
          have hi := handleApprovals_ids env o.confirmations o.notifCut
            o.permission.needs_approval s1
          rw [hB] at hi
          rw [hi] at hh
          obtain ⟨x, hx, rfl⟩ := List.mem_map.mp hh
          exact List.mem_map.mpr ⟨x, List.mem_of_mem_filter hx, rfl⟩
      simp only [isNotifFor, decide_eq_true_eq]
      intro heq
      subst heq
      rcases hsub with hh | hh
      · exact hna hh
      · exact hnn hh
    rw [h1, h1, h2]
    simp [isNotifFor]
  · intro hmem
    rcases List.mem_append.mp hmem with hh | hh
    · have hd := dispatchApproved_dispatched env o.notifCut o.permission.approved st r.id
      rw [hA] at hd
      exact hna (hd hh)
    · have hd := handleApprovals_dispatched env o.confirmations o.notifCut
        o.permission.needs_approval s1 r.id
      rw [hB] at hd
      exact hnn (hd hh)

/-- C6 witness: the single denied request b is declined in the accumulator, produces no
notification event, and is never dispatched. -/
theorem c6_denied_never_dispatched_witness :
    (("auto" : String) ≠ "chat") ∧ (reqB ∈ oracle_denied.permission.denied) ∧
    (((reqB.id, Except.ok [Content.text DECLINED_RESPONSE]) ∈
        (runTurn trivialEnv st0 "auto" oracle_denied).finalResponse) ∧
      ((runTurn trivialEnv st0 "auto" oracle_denied).events.countP
        (isNotifFor reqB.id) = 0) ∧
      (TraceEv.toolDispatched reqB.id ∉
        (runTurn trivialEnv st0 "auto" oracle_denied).trace)) :=
  ⟨by decide, by decide,
   c6_denied_never_dispatched trivialEnv st0 "auto" oracle_denied reqB (by decide)
     (by decide) (by decide) (by decide)⟩

/-- C8: if the loop reaches a provider error after any number of continuing iterations,
a ContextLengthExceeded error makes that iteration contribute exactly the one fixed
guidance message and end the loop, and any other provider error makes it contribute
exactly the one fixed please-retry message including the error text and end the loop;
in both cases the provider was called exactly once more than the number of completed
iterations — nothing after the error is consumed and nothing is retried. -/
theorem c8_provider_errors_terminal (env : DispatchEnv) (st : AgentState) (mode : String)
    (pre rest₁ rest₂ : List ProviderOutcome) (e₁ e₂ : String)
    (hc : ∀ p ∈ pre, continuesOk p = true) :
    (∃ evs, runLoop env st mode (pre ++ .contextLengthExceeded e₁ :: rest₁) =
      (evs ++ [AgentEvent.message
        (Msg.contextLengthExceeded CONTEXT_LENGTH_EXCEEDED_TEXT)],
       pre.length + 1)) ∧
    (∃ evs, runLoop env st mode (pre ++ .other e₂ :: rest₂) =
      (evs ++ [AgentEvent.message (Msg.assistant (retryText e₂))],
       pre.length + 1)) := by
  induction pre generalizing st with
  | nil => exact ⟨⟨[], rfl⟩, ⟨[], rfl⟩⟩
  | cons p tl ih =>
      have hp := hc p (List.mem_cons_self p tl)
      have htl : ∀ q ∈ tl, continuesOk q = true :=
        fun q hq => hc q (List.mem_cons_of_mem p hq)
      cases p with
      | contextLengthExceeded e => simp [continuesOk] at hp
      | other e => simp [continuesOk] at hp
      | ok chargeErr turn =>
          cases chargeErr with
          | some e => simp [continuesOk] at hp
          | none =>
              have hlen :
                  ¬ turn.frontendRequests.length + turn.remainingRequests.length = 0 := by
                have h := hp
                simp only [continuesOk] at h
                exact of_decide_eq_true h
              obtain ⟨⟨evs1, h1⟩, ⟨evs2, h2⟩⟩ := ih (runTurn env st mode turn).state htl
              constructor
              · refine ⟨[AgentEvent.message (Msg.assistant turn.filteredText)] ++
                  (runTurn env st mode turn).events ++ evs1, ?_⟩
                rw [List.cons_append, runLoop_ok_none, if_neg hlen, h1]
                simp [List.append_assoc]
              · refine ⟨[AgentEvent.message (Msg.assistant turn.filteredText)] ++
                  (runTurn env st mode turn).events ++ evs2, ?_⟩
                rw [List.cons_append, runLoop_ok_none, if_neg hlen, h2]
                simp [List.append_assoc]

/-- C8 witness: after one continuing iteration, a context-length error and an other
error each contribute exactly their fixed terminal message, with two provider calls and
the rest of the script unconsumed. -/
theorem c8_provider_errors_terminal_witness :
    (∀ p ∈ [iter_ok], continuesOk p = true) ∧
    ((∃ evs, runLoop trivialEnv st0 "auto"
        ([iter_ok] ++ .contextLengthExceeded "ctx" :: []) =
      (evs ++ [AgentEvent.message
        (Msg.contextLengthExceeded CONTEXT_LENGTH_EXCEEDED_TEXT)],
       [iter_ok].length + 1)) ∧
     (∃ evs, runLoop trivialEnv st0 "auto" ([iter_ok] ++ .other "boom" :: []) =
      (evs ++ [AgentEvent.message (Msg.assistant (retryText "boom"))],
       [iter_ok].length + 1))) :=
  ⟨by decide,
   c8_provider_errors_terminal trivialEnv st0 "auto" [iter_ok] [] [] "ctx" "boom"
     (by decide)⟩

/-- C1 witness: a generic extension call under the identity-free marker environment
comes back post-processed. -/
theorem c1_nonmanage_postprocessed_witness :
    ("some_tool" ≠ PLATFORM_MANAGE_EXTENSIONS_TOOL_NAME) ∧
    (∃ raw, (ToolCallResult.mk (.ok [Content.text "PROCESSED"]) none).result = env_proc.proc raw) :=
  ⟨by decide,
   c1_nonmanage_postprocessed env_proc st0 { name := "some_tool", arguments := [] }
     "r1" "r1" (ToolCallResult.mk (.ok [Content.text "PROCESSED"]) none) st0
     [TraceEv.extensionDispatched "some_tool"] (by decide) (by decide)⟩

end Goose
